import Mathlib

/-!
Verification of the ingestion / join / derived-metrics pipeline of the
airline-operations dashboard (`app.py`).  The pipeline is shallowly embedded:
pandas DataFrames become `Table` (a column-name list plus a row list), the
`try`/`except` boundary becomes an `Except`-valued run function, and the
Streamlit notices become explicit fields of the result record.
-/

namespace AirlineDash

attribute [local semireducible] Rat.mul Rat.inv

/-- A cell of a loaded table.  `null` models pandas NaN/NaT, `ts` models a
parsed timezone-aware timestamp as whole seconds since the Unix epoch,
`rat` models a float column holding an exact value. -/
inductive Value where
  | null
  | str (s : String)
  | int (n : Int)
  | rat (q : ℚ)
  | ts (t : Int)
  deriving DecidableEq

/-- A DataFrame: ordered column names plus rows of cells (row `i`, column `j`
is `rows[i][j]`).  `reset_index(drop=True)` is implicit: row identity is the
position in the list. -/
structure Table where
  cols : List String
  rows : List (List Value)
  deriving DecidableEq

/-- Well-formedness: every row has exactly one cell per column. -/
def wfB (t : Table) : Bool :=
  t.rows.all (fun r => r.length == t.cols.length)

def emptyTable : Table := ⟨[], []⟩

/-- Index of the first column named `c` (pandas label lookup). -/
def colIdx : List String → String → Option Nat
  | [], _ => none
  | c :: cs, x => if c == x then some 0 else (colIdx cs x).map (· + 1)

/-- Cell of `row` in the column labelled `c` (`df[c]` at one row). -/
def getCell (cols : List String) (row : List Value) (c : String) : Option Value :=
  (colIdx cols c).bind (fun i => row[i]?)

def companyIdCol : String := "company_id"
def flightNumberCol : String := "flight_number"
def schedDepDateCol : String := "scheduled_departure_date_local"

/-- The composite join key used by both `pd.merge` calls. -/
def joinKeys : List String := [companyIdCol, flightNumberCol, schedDepDateCol]

def schedDepCol : String := "scheduled_departure_datetime_local"
def actualDepCol : String := "actual_departure_datetime_local"
def schedArrCol : String := "scheduled_arrival_datetime_local"
def actualArrCol : String := "actual_arrival_datetime_local"

/-- The four columns passed through `pd.to_datetime`, in source order. -/
def datetimeCols : List String := [schedDepCol, actualDepCol, schedArrCol, actualArrCol]

def depDelayCol : String := "departure_delay_mins"
def arrDelayCol : String := "arrival_delay_mins"
def flightDifficultyCol : String := "flight_difficulty_score"

/-! ### Substring scan (Python `needle in hay`) -/

def isPrefixOfB : List Char → List Char → Bool
  | [], _ => true
  | _ :: _, [] => false
  | a :: as, b :: bs => a == b && isPrefixOfB as bs

def isInfixOfB (p : List Char) : List Char → Bool
  | [] => isPrefixOfB p []
  | b :: bs => isPrefixOfB p (b :: bs) || isInfixOfB p bs

def strContainsB (hay needle : String) : Bool :=
  isInfixOfB needle.data hay.data

/-- `str.lower()`, character by character. -/
def lowerStr (s : String) : String := ⟨s.data.map Char.toLower⟩

/-- Python test: "difficulty" in c.lower() or "score" in c.lower(). -/
def matchesDifficulty (c : String) : Bool :=
  strContainsB (lowerStr c) "difficulty" || strContainsB (lowerStr c) "score"

/-! ### Timestamp parsing

`pd.to_datetime(col, errors="coerce", utc=True)` is modelled by a parser for
ISO `YYYY-MM-DD HH:MM:SS` (or `T`-separated) strings; anything else coerces to
missing.  Numeric cells (which pandas would read as epoch nanoseconds) are
treated as unparseable here — no claim exercises numeric datetime columns. -/

def digitVal (c : Char) : Nat := c.toNat - 48

def dashChar : Char := Char.ofNat 45
def colonChar : Char := Char.ofNat 58
def spaceChar : Char := Char.ofNat 32
def tSepChar : Char := Char.ofNat 84

def isLeapYear (y : Int) : Bool :=
  (y % 4 == 0 && y % 100 != 0) || y % 400 == 0

def daysInMonth (y m : Int) : Int :=
  if m == 2 then (if isLeapYear y then 29 else 28)
  else if m == 4 || m == 6 || m == 9 || m == 11 then 30
  else 31

/-- Days from 1970-01-01 to the given civil date (standard civil-calendar
conversion). -/
def daysFromCivil (y m d : Int) : Int :=
  let yy := if m ≤ 2 then y - 1 else y
  let era := (if 0 ≤ yy then yy else yy - 399) / 400
  let yoe := yy - era * 400
  let mp := (m + 9) % 12
  let doy := (153 * mp + 2) / 5 + d - 1
  let doe := yoe * 365 + yoe / 4 - yoe / 100 + doy
  era * 146097 + doe - 719468

def parseDatetime (s : String) : Option Int :=
  match s.data with
  | [y1, y2, y3, y4, h1, mo1, mo2, h2, d1, d2, sep, hh1, hh2, c1, mi1, mi2, c2, ss1, ss2] =>
    if ([y1, y2, y3, y4, mo1, mo2, d1, d2, hh1, hh2, mi1, mi2, ss1, ss2].all Char.isDigit)
        && h1 == dashChar && h2 == dashChar && c1 == colonChar && c2 == colonChar
        && (sep == spaceChar || sep == tSepChar) then
      let y : Int := Int.ofNat (digitVal y1 * 1000 + digitVal y2 * 100 + digitVal y3 * 10 + digitVal y4)
      let mo : Int := Int.ofNat (digitVal mo1 * 10 + digitVal mo2)
      let d : Int := Int.ofNat (digitVal d1 * 10 + digitVal d2)
      let hh : Int := Int.ofNat (digitVal hh1 * 10 + digitVal hh2)
      let mi : Int := Int.ofNat (digitVal mi1 * 10 + digitVal mi2)
      let ss : Int := Int.ofNat (digitVal ss1 * 10 + digitVal ss2)
      if 1 ≤ mo ∧ mo ≤ 12 ∧ 1 ≤ d ∧ d ≤ daysInMonth y mo ∧ hh ≤ 23 ∧ mi ≤ 59 ∧ ss ≤ 59 then
        some (daysFromCivil y mo d * 86400 + hh * 3600 + mi * 60 + ss)
      else none
    else none
  | _ => none

/-- One cell through `pd.to_datetime(_, errors="coerce")`: already-parsed
timestamps pass through, parseable strings become timestamps, everything else
becomes missing (NaT) rather than raising. -/
def coerceDatetime (v : Value) : Value :=
  match v with
  | .ts t => .ts t
  | .str s =>
    match parseDatetime s with
    | some t => .ts t
    | none => .null
  | _ => .null

/-! ### Step 5: timestamp normalization (per-column-optional) -/

/-- Apply `coerceDatetime` at each of the given column positions of a row. -/
def normRow (idxs : List Nat) (r : List Value) : List Value :=
  idxs.foldl (fun r i => r.set i (coerceDatetime (r.getD i Value.null))) r

/-- `for col in datetime_cols: if col in merged_df.columns: to_datetime(...)`. -/
def normalizeTable (t : Table) : Table :=
  { cols := t.cols, rows := t.rows.map (normRow (datetimeCols.filterMap (colIdx t.cols))) }

/-! ### Step 6: delay derivation -/

/-- `(actual - scheduled).dt.total_seconds() / 60`, then `.fillna(0)`:
any missing operand yields exactly `0`, never null. -/
def delayCell (a s : Value) : Value :=
  match a, s with
  | .ts x, .ts y => .rat (((x - y : Int) : ℚ) / 60)
  | _, _ => .rat 0

/-- Append `departure_delay_mins` and `arrival_delay_mins`.  The source
accesses the four datetime columns unconditionally, so a missing one raises
`KeyError` (an `Except.error` here), caught later at the pipeline boundary. -/
def deriveDelays (t : Table) : Except String Table :=
  match colIdx t.cols actualDepCol, colIdx t.cols schedDepCol,
        colIdx t.cols actualArrCol, colIdx t.cols schedArrCol with
  | some ia, some isd, some iaa, some isa =>
    Except.ok
      { cols := t.cols ++ [depDelayCol, arrDelayCol],
        rows := t.rows.map (fun r =>
          r ++ [delayCell (r.getD ia Value.null) (r.getD isd Value.null),
                delayCell (r.getD iaa Value.null) (r.getD isa Value.null)]) }
  | _, _, _, _ => Except.error "KeyError: datetime column missing"

/-! ### Step 7: difficulty-score resolution -/

/-- `np.random.randint(1, 100, n)`: one integer in `[1, 100)` per row, the
randomness abstracted into the stream `rand` (the source does not seed it). -/
def addRand (rand : Nat → Nat) : Nat → List (List Value) → List (List Value)
  | _, [] => []
  | i, r :: rs => (r ++ [Value.int (Int.ofNat (1 + rand i % 99))]) :: addRand rand (i + 1) rs

/-- Returns the resolved table, the informational note (the detected original
column name, if any) and whether the synthetic-values warning was emitted. -/
def resolveDifficulty (rand : Nat → Nat) (t : Table) : Table × Option String × Bool :=
  match (t.cols.filter matchesDifficulty).head? with
  | some c =>
    ({ cols := t.cols.map (fun x => if x == c then flightDifficultyCol else x),
       rows := t.rows }, some c, false)
  | none =>
    ({ cols := t.cols ++ [flightDifficultyCol], rows := addRand rand 0 t.rows }, none, true)

/-! ### Step 3: the left joins -/

/-- The values of `row` at the join-key columns. -/
def rowKeyOf (cols : List String) (keys : List String) (row : List Value) : List (Option Value) :=
  keys.map (fun k => getCell cols row k)

/-- Whether the join-key values of `row` equal `kv`. -/
def hasKeyB (cols keys : List String) (kv : List (Option Value)) (row : List Value) : Bool :=
  decide (rowKeyOf cols keys row = kv)

/-- Number of rows of `t` whose join-key values equal `kv`. -/
def countKey (t : Table) (keys : List String) (kv : List (Option Value)) : Nat :=
  (t.rows.filter (hasKeyB t.cols keys kv)).length

def nonKeyCols (cols keys : List String) : List String :=
  cols.filter (fun c => !keys.contains c)

/-- The non-key cells of a right-table row, in column order. -/
def nonKeyVals (cols keys : List String) (row : List Value) : List Value :=
  ((cols.zip row).filter (fun p => !keys.contains p.1)).map Prod.snd

/-- Result columns of `pd.merge(l, r, on=keys, how="left")`: left columns
(overlapping non-key names suffixed `_x`), then right non-key columns
(overlapping names suffixed `_y`). -/
def mergedCols (l r : Table) (keys : List String) : List String :=
  l.cols.map (fun c => if !keys.contains c && r.cols.contains c then c ++ "_x" else c)
    ++ (nonKeyCols r.cols keys).map (fun c => if l.cols.contains c then c ++ "_y" else c)

/-- Rows a single left row contributes: one null-padded row when no right row
matches on the key, else one combined row per match. -/
def mergeRowsOne (r : Table) (keys : List String) (lcols : List String) (lr : List Value) :
    List (List Value) :=
  match r.rows.filter (hasKeyB r.cols keys (rowKeyOf lcols keys lr)) with
  | [] => [lr ++ List.replicate (nonKeyCols r.cols keys).length Value.null]
  | ms => ms.map (fun rr => lr ++ nonKeyVals r.cols keys rr)

/-- The three tables share no column names besides the join keys (true of the
dashboard extracts; rules out the pandas `_x`/`_y` suffixing). -/
def disjointB (lc rc keys : List String) : Bool :=
  lc.all (fun c => !rc.contains c || keys.contains c)
    && rc.all (fun c => !lc.contains c || keys.contains c)

/-- `pd.merge(l, r, on=keys, how="left")`; raises (as pandas does) when a key
column is absent from either side. -/
def mergeT (l r : Table) (keys : List String) : Except String Table :=
  if keys.all (fun k => l.cols.contains k) && keys.all (fun k => r.cols.contains k) then
    Except.ok { cols := mergedCols l r keys,
                rows := l.rows.flatMap (mergeRowsOne r keys l.cols) }
  else Except.error "KeyError: merge key column missing"

/-! ### Step 4: dedup -/

/-- `drop_duplicates()`: keep the first occurrence of each distinct row. -/
def dedupRows : List (List Value) → List (List Value)
  | [] => []
  | r :: rs => r :: (dedupRows rs).filter (fun x => decide (¬ x = r))

/-- Whether some row occurs twice (exact duplicate across every column). -/
def hasDupB : List (List Value) → Bool
  | [] => false
  | r :: rs => rs.any (fun x => decide (x = r)) || hasDupB rs

/-! ### Step 2: deterministic downsample -/

def lcgNext (s : Nat) : Nat := (s * 1103515245 + 12345) % 4294967296

/-- Draw `k` rows without replacement, the pseudorandom draws determined
entirely by `seed` (the numpy stream behind `sample(random_state=seed)` is
abstracted by an LCG; every property proved depends only on the draws being a
pure function of the seed). -/
def sampleK : Nat → Nat → List (List Value) → List (List Value)
  | 0, _, _ => []
  | _ + 1, _, [] => []
  | k + 1, s, rows =>
    let s' := lcgNext s
    let i := s' % rows.length
    rows.getD i [] :: sampleK k s' (rows.eraseIdx i)

/-- `if len(df) > 10000: df = df.sample(n=10000, random_state=42).reset_index(drop=True)`.
Row order is positional, so `reset_index(drop=True)` is implicit. -/
def sampleIfBig (t : Table) : Table :=
  if 10000 < t.rows.length then { cols := t.cols, rows := sampleK 10000 42 t.rows } else t

/-! ### The pipeline -/

inductive LoadErr where
  | missingFile (name : String)
  | otherErr (msg : String)
  deriving DecidableEq

/-- The five `pd.read_csv` outcomes: a table, a `FileNotFoundError`, or some
other load failure. -/
structure Sources where
  flight : Except LoadErr Table
  pnr : Except LoadErr Table
  bag : Except LoadErr Table
  remark : Except LoadErr Table
  airport : Except LoadErr Table

/-- The message passed to `st.error` in each `except` branch. -/
def errMsgOf : LoadErr → String
  | .missingFile n => "Error: Missing file - " ++ n ++ ". Please ensure all CSV files are uploaded."
  | .otherErr m => "Unexpected error loading data: " ++ m

/-- Steps 5-7 on the deduplicated merge result. -/
def postProcess (rand : Nat → Nat) (t : Table) : Except String (Table × Option String × Bool) :=
  match deriveDelays (normalizeTable t) with
  | .error e => .error e
  | .ok t2 => .ok (resolveDifficulty rand t2)

/-- The body of the `try` block, in source order. -/
def runPipeline (src : Sources) (rand : Nat → Nat) :
    Except LoadErr (Table × Table × Table × Table × Table × Table × Option String × Bool) := do
  let f ← src.flight
  let f := sampleIfBig f
  let p ← src.pnr
  let p := sampleIfBig p
  let b ← src.bag
  let b := sampleIfBig b
  let rm ← src.remark
  let ap ← src.airport
  let m1 ← (mergeT f p joinKeys).mapError LoadErr.otherErr
  let m2 ← (mergeT m1 b joinKeys).mapError LoadErr.otherErr
  let m3 : Table := { cols := m2.cols, rows := dedupRows m2.rows }
  match postProcess rand m3 with
  | .error e => .error (.otherErr e)
  | .ok (m, note, warn) => .ok (f, p, b, rm, ap, m, note, warn)

/-- The 6-tuple the dashboard unpacks, plus the Streamlit notices.  On failure
the five source slots are `None` but the merged slot is an *empty DataFrame*,
exactly as in the `except` branches of the source. -/
structure PipeResult where
  flight? : Option Table
  pnr? : Option Table
  bag? : Option Table
  remark? : Option Table
  airport? : Option Table
  merged? : Option Table
  errorMsg : Option String
  note : Option String
  warning : Bool
  deriving DecidableEq

def load_and_process_data (src : Sources) (rand : Nat → Nat) : PipeResult :=
  match runPipeline src rand with
  | .ok (f, p, b, rm, ap, m, note, warn) =>
    ⟨some f, some p, some b, some rm, some ap, some m, none, note, warn⟩
  | .error e =>
    ⟨none, none, none, none, none, some emptyTable, some (errMsgOf e), none, false⟩

/-! ### Presentation layer: the KPI block -/

def ratOf (v : Value) : ℚ :=
  match v with
  | .rat q => q
  | .int n => (n : ℚ)
  | _ => 0

/-- `df[c]` as a numeric series; `KeyError` when the column is absent. -/
def colRats (t : Table) (c : String) : Except String (List ℚ) :=
  match colIdx t.cols c with
  | none => .error ("KeyError: " ++ c)
  | some i => .ok (t.rows.map (fun r => ratOf (r.getD i Value.null)))

/-- `.mean()`: NaN (here `none`) on an empty series. -/
def meanQ (xs : List ℚ) : Option ℚ :=
  if xs.length = 0 then none else some (xs.sum / (xs.length : ℚ))

/-- `(df["departure_delay_mins"] <= 15).mean() * 100`. -/
def on_time_pct (delays : List ℚ) : Option ℚ :=
  if delays.length = 0 then none
  else some ((((delays.filter (fun d => decide (d ≤ 15))).length : ℚ) / (delays.length : ℚ)) * 100)

/-- The one-decimal rendering `f"{x:.1f}"` of a percentage, as a rational. -/
def roundTo1 (x : ℚ) : ℚ := ((round (10 * x) : ℤ) : ℚ) / 10

structure KpiView where
  avgDepDelay : Option ℚ
  avgArrDelay : Option ℚ
  avgGroundTime : Option ℚ
  onTimePct : Option ℚ
  deriving DecidableEq

def groundTimeCol : String := "actual_ground_time_minutes"

/-- The KPI block: guarded by `if df is not None`, then computes the four
metrics (each raising `KeyError` if its column is absent). -/
def kpiBlock (df? : Option Table) : Except String (Option KpiView) :=
  match df? with
  | none => .ok none
  | some df =>
    match colRats df depDelayCol, colRats df arrDelayCol, colRats df groundTimeCol with
    | .ok dep, .ok arr, .ok gt => .ok (some ⟨meanQ dep, meanQ arr, meanQ gt, on_time_pct dep⟩)
    | .error e, _, _ => .error e
    | _, .error e, _ => .error e
    | _, _, .error e => .error e

/-- A fixed stand-in random stream for concrete runs. -/
def rand0 : Nat → Nat := fun _ => 0

/-! ### Statement vocabulary and concrete run inputs -/

/-- The delay determined by the two (already normalized) operand cells of a row:
`(actual - scheduled)` in minutes when both are timestamps, else `0`. -/
def delayVal (a s : Option Value) : Value :=
  match a, s with
  | some (.ts x), some (.ts y) => .rat (((x - y : Int) : ℚ) / 60)
  | _, _ => .rat 0

def okT (e : Except String Table) : Table :=
  match e with
  | .ok t => t
  | .error _ => emptyTable

def ppOkT (e : Except String (Table × Option String × Bool)) : Table :=
  match e with
  | .ok (t, _, _) => t
  | .error _ => emptyTable

def ppOkNote (e : Except String (Table × Option String × Bool)) : Option String :=
  match e with
  | .ok (_, n, _) => n
  | .error _ => none

def ppOkWarn (e : Except String (Table × Option String × Bool)) : Bool :=
  match e with
  | .ok (_, _, w) => w
  | .error _ => false

/-- A right table carrying only the join keys and no rows. -/
def keyOnlyT : Table := { cols := joinKeys, rows := [] }

/-- C1 witness input: a deduplicated merged table with one on-time-shifted row
(`actual = scheduled + 23 min`) and one row with a missing actual departure. -/
def tC1 : Table :=
  { cols := [schedDepCol, actualDepCol, schedArrCol, actualArrCol],
    rows := [
      [.str "2024-01-01 10:00:00", .str "2024-01-01 10:23:00",
       .str "2024-01-01 12:00:00", .str "2024-01-01 11:50:00"],
      [.str "2024-01-01 10:00:00", .null,
       .str "2024-01-01 12:00:00", .str "2024-01-01 12:10:00"]] }

def mC1 : Table := ppOkT (postProcess rand0 tC1)

/-- C2 witness inputs: both-matching column names, and no matching name. -/
def tC2a : Table := { cols := ["score_v1", "difficulty_raw"], rows := [[.int 3, .int 4]] }

def tC2b : Table := { cols := ["carrier", "x"], rows := [[.str "UA", .int 0], [.str "AA", .int 1]] }

/-- C3 witness inputs: flight row A with two PNR matches and no bags, flight
row B with no matches at all. -/
def flC3 : Table :=
  { cols := joinKeys ++ datetimeCols ++ ["carrier"],
    rows := [
      [.int 1, .int 7, .str "2024-01-01", .str "2024-01-01 10:00:00", .str "2024-01-01 10:23:00",
       .str "2024-01-01 12:00:00", .str "2024-01-01 11:50:00", .str "UA"],
      [.int 2, .int 8, .str "2024-01-02", .str "2024-01-02 09:00:00", .str "2024-01-02 09:05:00",
       .str "2024-01-02 11:00:00", .str "2024-01-02 11:00:00", .str "AA"]] }

def pnrC3 : Table :=
  { cols := joinKeys ++ ["pnr_id"],
    rows := [
      [.int 1, .int 7, .str "2024-01-01", .int 900],
      [.int 1, .int 7, .str "2024-01-01", .int 901],
      [.int 3, .int 9, .str "2024-01-03", .int 902]] }

def bagC3 : Table := { cols := joinKeys ++ ["bag_id"], rows := [] }

/-- Key values of flight row A (two PNR matches). -/
def kvC3a : List (Option Value) := [some (.int 1), some (.int 7), some (.str "2024-01-01")]

/-- Key values of flight row B (no matches anywhere). -/
def kvC3b : List (Option Value) := [some (.int 2), some (.int 8), some (.str "2024-01-02")]

def m1C3 : Table := okT (mergeT flC3 pnrC3 joinKeys)

def m2C3 : Table := okT (mergeT m1C3 bagC3 joinKeys)

/-- C4 counterexample flight table: two rows identical except for two distinct
unparseable actual-departure strings, plus a detectable difficulty column. -/
def flC4 : Table :=
  { cols := joinKeys ++ datetimeCols ++ ["score"],
    rows := [
      [.int 1, .int 100, .str "2024-01-01", .str "2024-01-01 10:00:00", .str "garbage-a",
       .str "2024-01-01 12:00:00", .str "2024-01-01 12:00:00", .int 5],
      [.int 1, .int 100, .str "2024-01-01", .str "2024-01-01 10:00:00", .str "garbage-b",
       .str "2024-01-01 12:00:00", .str "2024-01-01 12:00:00", .int 5]] }

def srcC4 : Sources :=
  { flight := .ok flC4, pnr := .ok keyOnlyT, bag := .ok keyOnlyT,
    remark := .ok emptyTable, airport := .ok emptyTable }

def mergedC4 : Table := (load_and_process_data srcC4 rand0).merged?.getD emptyTable

/-- C5 witness input: 10001 one-cell rows. -/
def bigT : Table := { cols := ["a"], rows := List.replicate 10001 [Value.int 0] }

/-- C6 witness input: the flight CSV is missing. -/
def srcC6 : Sources :=
  { flight := .error (.missingFile "clean_flight_data.csv"), pnr := .ok keyOnlyT,
    bag := .ok keyOnlyT, remark := .ok emptyTable, airport := .ok emptyTable }

/-- C7 counterexample input: a parse-clean run whose merged table lacks
`actual_departure_datetime_local` entirely. -/
def flC7 : Table :=
  { cols := joinKeys ++ [schedDepCol, schedArrCol, actualArrCol],
    rows := [[.int 1, .int 100, .str "2024-01-01", .str "2024-01-01 10:00:00",
              .str "2024-01-01 12:00:00", .str "2024-01-01 12:05:00"]] }

def srcC7 : Sources :=
  { flight := .ok flC7, pnr := .ok keyOnlyT, bag := .ok keyOnlyT,
    remark := .ok emptyTable, airport := .ok emptyTable }

/-- C7 amended-claim witness: a table without the actual-departure column. -/
def tC7 : Table := { cols := [schedDepCol, schedArrCol], rows := [[.str "bad", .str "worse"]] }

/-- C8 failing input: the flight CSV is missing, so the pipeline fails and the
df seen by the dashboard is the empty DataFrame. -/
def srcC8 : Sources :=
  { flight := .error (.missingFile "clean_flight_data.csv"), pnr := .ok keyOnlyT,
    bag := .ok keyOnlyT, remark := .ok emptyTable, airport := .ok emptyTable }

/-- C10 witness input: an unparseable PNR CSV. -/
def srcC10 : Sources :=
  { flight := .ok keyOnlyT, pnr := .error (.otherErr "ParserError: bad CSV"),
    bag := .ok keyOnlyT, remark := .ok emptyTable, airport := .ok emptyTable }

def noteC1 : Option String := ppOkNote (postProcess rand0 tC1)

def warnC1 : Bool := ppOkWarn (postProcess rand0 tC1)

/-- C5 witness input: a small all-clean run. -/
def srcC5 : Sources :=
  { flight := .ok flC3, pnr := .ok keyOnlyT, bag := .ok keyOnlyT,
    remark := .ok emptyTable, airport := .ok emptyTable }

def rpOk6 (e : Except LoadErr
    (Table × Table × Table × Table × Table × Table × Option String × Bool)) : Table :=
  match e with
  | .ok (_, _, _, _, _, m, _, _) => m
  | .error _ => emptyTable

def rpNote (e : Except LoadErr
    (Table × Table × Table × Table × Table × Table × Option String × Bool)) : Option String :=
  match e with
  | .ok (_, _, _, _, _, _, n, _) => n
  | .error _ => none

def rpWarn (e : Except LoadErr
    (Table × Table × Table × Table × Table × Table × Option String × Bool)) : Bool :=
  match e with
  | .ok (_, _, _, _, _, _, _, w) => w
  | .error _ => false

def mC5 : Table := rpOk6 (runPipeline srcC5 rand0)

def noteC5 : Option String := rpNote (runPipeline srcC5 rand0)

def warnC5 : Bool := rpWarn (runPipeline srcC5 rand0)

/-- Flight row B of the C3 witness (no PNR or bag matches). -/
def rowBC3 : List Value :=
  [.int 2, .int 8, .str "2024-01-02", .str "2024-01-02 09:00:00", .str "2024-01-02 09:05:00",
   .str "2024-01-02 11:00:00", .str "2024-01-02 11:00:00", .str "AA"]

def dedupC3 : Table := ⟨m2C3.cols, dedupRows m2C3.rows⟩

def mC3f : Table := ppOkT (postProcess rand0 dedupC3)

def noteC3 : Option String := ppOkNote (postProcess rand0 dedupC3)

def warnC3 : Bool := ppOkWarn (postProcess rand0 dedupC3)

/-! ## Lemmas: column lookup -/

theorem colIdx_lt_length {cols : List String} {c : String} {i : Nat}
    (h : colIdx cols c = some i) : i < cols.length := by
  induction cols generalizing i with
  | nil => simp [colIdx] at h
  | cons a as ih =>
    simp only [colIdx] at h
    split at h
    · cases h; simp
    · rcases Option.map_eq_some'.mp h with ⟨j, hj, rfl⟩
      have := ih hj
      simp only [List.length_cons]
      omega

theorem colIdx_getElem? {cols : List String} {c : String} {i : Nat}
    (h : colIdx cols c = some i) : cols[i]? = some c := by
  induction cols generalizing i with
  | nil => simp [colIdx] at h
  | cons a as ih =>
    simp only [colIdx] at h
    split at h
    · rename_i hac
      cases h
      simp [beq_iff_eq.mp hac]
    · rcases Option.map_eq_some'.mp h with ⟨j, hj, rfl⟩
      simpa using ih hj

theorem colIdx_append_left {cols : List String} {c : String} {i : Nat}
    (h : colIdx cols c = some i) (cols' : List String) :
    colIdx (cols ++ cols') c = some i := by
  induction cols generalizing i with
  | nil => simp [colIdx] at h
  | cons a as ih =>
    simp only [colIdx, List.cons_append, List.append_eq] at h ⊢
    split at h
    · rename_i hac; rw [if_pos hac]; exact h
    · rename_i hac
      rw [if_neg hac]
      rcases Option.map_eq_some'.mp h with ⟨j, hj, rfl⟩
      rw [ih hj]
      rfl

theorem colIdx_append_none {cols : List String} {c : String}
    (h : colIdx cols c = none) (cols' : List String) :
    colIdx (cols ++ cols') c = (colIdx cols' c).map (· + cols.length) := by
  induction cols with
  | nil =>
    simp only [List.nil_append, List.length_nil]
    cases colIdx cols' c <;> simp
  | cons a as ih =>
    simp only [colIdx, List.cons_append, List.append_eq] at h ⊢
    split at h
    · exact absurd h (by simp)
    · rename_i hac
      rw [if_neg hac, ih (Option.map_eq_none'.mp h)]
      cases colIdx cols' c <;> simp
      omega

theorem colIdx_eq_none_iff {cols : List String} {c : String} :
    colIdx cols c = none ↔ ¬ c ∈ cols := by
  induction cols with
  | nil => simp [colIdx]
  | cons a as ih =>
    simp only [colIdx, List.mem_cons]
    split
    · rename_i hac
      have : a = c := beq_iff_eq.mp hac
      simp [this]
    · rename_i hac
      have : ¬ a = c := by simpa using hac
      rw [Option.map_eq_none']
      rw [ih]
      constructor
      · intro hn hm
        rcases hm with hm | hm
        · exact this hm.symm
        · exact hn hm
      · intro hn hm
        exact hn (Or.inr hm)

theorem colIdx_isSome_of_mem {cols : List String} {c : String} (h : c ∈ cols) :
    (colIdx cols c).isSome := by
  cases hc : colIdx cols c with
  | none => exact absurd h (colIdx_eq_none_iff.mp hc)
  | some i => rfl

theorem colIdx_map_congr {cols : List String} {c : String} (f : String → String)
    (h : ∀ x, (f x == c) = (x == c)) : colIdx (cols.map f) c = colIdx cols c := by
  induction cols with
  | nil => rfl
  | cons a as ih =>
    simp only [List.map_cons, colIdx, h a, ih]

/-! ## Lemmas: cells and well-formedness -/

theorem wfB_len {t : Table} (hwf : wfB t = true) {r : List Value} (hr : r ∈ t.rows) :
    r.length = t.cols.length := by
  have := List.all_eq_true.mp hwf r hr
  exact beq_iff_eq.mp this

theorem getCell_of_colIdx_none {cols : List String} {c : String}
    (h : colIdx cols c = none) (row : List Value) : getCell cols row c = none := by
  simp [getCell, h]

theorem getCell_of_colIdx_some {cols : List String} {c : String} {i : Nat}
    (h : colIdx cols c = some i) (row : List Value) : getCell cols row c = row[i]? := by
  simp [getCell, h]

/-- Appending columns and cells on the right does not change a lookup that
lands in the original columns. -/
theorem getCell_append {cols cols' : List String} {row row' : List Value} {c : String}
    (hlen : row.length = cols.length) (hmem : c ∈ cols) :
    getCell (cols ++ cols') (row ++ row') c = getCell cols row c := by
  rcases Option.isSome_iff_exists.mp (colIdx_isSome_of_mem hmem) with ⟨i, hi⟩
  rw [getCell_of_colIdx_some hi, getCell_of_colIdx_some (colIdx_append_left hi cols')]
  exact List.getElem?_append_left (by rw [hlen]; exact colIdx_lt_length hi)

/-- A lookup of a name absent from the left columns lands in the appended
part, shifted. -/
theorem getCell_append_right {cols cols' : List String} {row row' : List Value} {c : String}
    (hlen : row.length = cols.length) (hmem : ¬ c ∈ cols) :
    getCell (cols ++ cols') (row ++ row') c = getCell cols' row' c := by
  have hnone : colIdx cols c = none := colIdx_eq_none_iff.mpr hmem
  rw [getCell, colIdx_append_none hnone cols']
  cases hc : colIdx cols' c with
  | none => simp [getCell, hc]
  | some j =>
    simp only [Option.map_some', Option.bind_some, getCell, hc]
    have : (row ++ row')[j + cols.length]? = row'[j]? := by
      rw [Nat.add_comm, ← hlen]
      rw [List.getElem?_append_right (by omega)]
      congr 1
      omega
    simpa using this

theorem getCell_map_congr {cols : List String} {row : List Value} {c : String}
    (f : String → String) (h : ∀ x, (f x == c) = (x == c)) :
    getCell (cols.map f) row c = getCell cols row c := by
  rw [getCell, colIdx_map_congr f h, getCell]

/-! ## Lemmas: timestamp normalization -/

theorem normRow_nil (r : List Value) : normRow [] r = r := rfl

theorem normRow_cons (i : Nat) (idxs : List Nat) (r : List Value) :
    normRow (i :: idxs) r = normRow idxs (r.set i (coerceDatetime (r.getD i Value.null))) := rfl

theorem normRow_length (idxs : List Nat) (r : List Value) :
    (normRow idxs r).length = r.length := by
  induction idxs generalizing r with
  | nil => rfl
  | cons i is ih => rw [normRow_cons, ih, List.length_set]

theorem normRow_getElem?_ne {idxs : List Nat} {j : Nat} (r : List Value)
    (h : ∀ i ∈ idxs, i ≠ j) : (normRow idxs r)[j]? = r[j]? := by
  induction idxs generalizing r with
  | nil => rfl
  | cons i is ih =>
    rw [normRow_cons, ih _ (fun x hx => h x (List.mem_cons_of_mem i hx))]
    exact List.getElem?_set_ne (h i (List.mem_cons_self i is))

/-! ## Lemmas: the left join -/

theorem rowKeyOf_append {lcols extra : List String} {lr xs : List Value} {keys : List String}
    (hlen : lr.length = lcols.length) (hkl : ∀ k ∈ keys, k ∈ lcols) :
    rowKeyOf (lcols ++ extra) keys (lr ++ xs) = rowKeyOf lcols keys lr := by
  unfold rowKeyOf
  exact List.map_congr_left (fun k hk => getCell_append hlen (hkl k hk))

theorem hasKeyB_append {lcols extra : List String} {lr xs : List Value}
    {keys : List String} {kv : List (Option Value)}
    (hlen : lr.length = lcols.length) (hkl : ∀ k ∈ keys, k ∈ lcols) :
    hasKeyB (lcols ++ extra) keys kv (lr ++ xs) = hasKeyB lcols keys kv lr := by
  unfold hasKeyB
  rw [rowKeyOf_append hlen hkl]

theorem containsStr_iff {l : List String} {c : String} : l.contains c = true ↔ c ∈ l := by
  simp [List.contains, List.elem_iff]

theorem nonKeyVals_cons (c : String) (v : Value) (cs : List String) (vs : List Value)
    (keys : List String) :
    nonKeyVals (c :: cs) keys (v :: vs)
      = if keys.contains c = true then nonKeyVals cs keys vs
        else v :: nonKeyVals cs keys vs := by
  by_cases hc : c ∈ keys <;>
    simp [nonKeyVals, List.zip_cons_cons, List.filter_cons, hc]

theorem nonKeyCols_cons (c : String) (cs : List String) (keys : List String) :
    nonKeyCols (c :: cs) keys
      = if keys.contains c = true then nonKeyCols cs keys
        else c :: nonKeyCols cs keys := by
  by_cases hc : c ∈ keys <;>
    simp [nonKeyCols, List.filter_cons, hc]

theorem nonKeyVals_length {cols keys : List String} :
    ∀ {rr : List Value}, rr.length = cols.length →
      (nonKeyVals cols keys rr).length = (nonKeyCols cols keys).length := by
  induction cols with
  | nil =>
    intro rr _
    simp [nonKeyVals, nonKeyCols]
  | cons c cs ih =>
    intro rr hlen
    cases rr with
    | nil => simp at hlen
    | cons v vs =>
      have hlen' : vs.length = cs.length := by
        simpa using hlen
      rw [nonKeyVals_cons, nonKeyCols_cons]
      by_cases hc : keys.contains c = true
      · rw [if_pos hc, if_pos hc]
        exact ih hlen'
      · rw [if_neg hc, if_neg hc, List.length_cons, List.length_cons, ih hlen']

theorem mergeT_ok_elim {l r m : Table} {keys : List String}
    (hm : mergeT l r keys = .ok m) :
    m.cols = mergedCols l r keys
      ∧ m.rows = l.rows.flatMap (mergeRowsOne r keys l.cols)
      ∧ (∀ k ∈ keys, k ∈ l.cols) ∧ (∀ k ∈ keys, k ∈ r.cols) := by
  unfold mergeT at hm
  split at hm
  · rename_i hc
    rw [Bool.and_eq_true] at hc
    obtain ⟨hcl, hcr⟩ := hc
    cases hm
    refine ⟨rfl, rfl, ?_, ?_⟩
    · intro k hk
      exact containsStr_iff.mp (List.all_eq_true.mp hcl k hk)
    · intro k hk
      exact containsStr_iff.mp (List.all_eq_true.mp hcr k hk)
  · cases hm

theorem disjointB_elim {lc rc keys : List String} (h : disjointB lc rc keys = true) :
    (∀ c ∈ lc, c ∈ rc → c ∈ keys) ∧ (∀ c ∈ rc, c ∈ lc → c ∈ keys) := by
  unfold disjointB at h
  rw [Bool.and_eq_true] at h
  obtain ⟨h1, h2⟩ := h
  constructor
  · intro c hc hcr
    have hx := List.all_eq_true.mp h1 c hc
    rw [Bool.or_eq_true] at hx
    rcases hx with hx | hx
    · rw [Bool.not_eq_true'] at hx
      have hct := containsStr_iff.mpr hcr
      rw [hx] at hct
      cases hct
    · exact containsStr_iff.mp hx
  · intro c hc hcl
    have hx := List.all_eq_true.mp h2 c hc
    rw [Bool.or_eq_true] at hx
    rcases hx with hx | hx
    · rw [Bool.not_eq_true'] at hx
      have hct := containsStr_iff.mpr hcl
      rw [hx] at hct
      cases hct
    · exact containsStr_iff.mp hx

theorem mergedCols_of_disjoint {l r : Table} {keys : List String}
    (hdisj : disjointB l.cols r.cols keys = true) :
    mergedCols l r keys = l.cols ++ nonKeyCols r.cols keys := by
  rcases disjointB_elim hdisj with ⟨h1, h2⟩
  unfold mergedCols
  congr 1
  · have hpt : ∀ c ∈ l.cols,
        (if !keys.contains c && r.cols.contains c then c ++ "_x" else c) = c := by
      intro c hc
      have hcond : (!keys.contains c && r.cols.contains c) = false := by
        by_cases hk : keys.contains c = true
        · rw [hk]
          simp
        · have hcr : r.cols.contains c = false := by
            by_contra hx
            have hm : c ∈ r.cols := containsStr_iff.mp (Bool.of_not_eq_false hx)
            exact hk (containsStr_iff.mpr (h1 c hc hm))
          rw [hcr]
          simp
      rw [hcond]
      simp
    rw [List.map_congr_left hpt, List.map_id']
  · have hpt : ∀ c ∈ nonKeyCols r.cols keys,
        (if l.cols.contains c then c ++ "_y" else c) = c := by
      intro c hc
      rcases List.mem_filter.mp hc with ⟨hcr, hck⟩
      have hck' : ¬ c ∈ keys := by
        intro hx
        have hct := containsStr_iff.mpr hx
        rw [Bool.not_eq_true'] at hck
        rw [hck] at hct
        cases hct
      have hcl : l.cols.contains c = false := by
        by_contra hx
        have hm : c ∈ l.cols := containsStr_iff.mp (Bool.of_not_eq_false hx)
        exact hck' (h2 c hcr hm)
      rw [hcl]
      simp
    rw [List.map_congr_left hpt, List.map_id']

/-- Length of the contribution of a single left row: one placeholder row when
nothing matches, else one row per match. -/
theorem mergeRowsOne_length (r : Table) (keys lcols : List String) (lr : List Value) :
    (mergeRowsOne r keys lcols lr).length
      = max (r.rows.filter (hasKeyB r.cols keys (rowKeyOf lcols keys lr))).length 1 := by
  unfold mergeRowsOne
  cases hms : r.rows.filter (hasKeyB r.cols keys (rowKeyOf lcols keys lr)) with
  | nil => simp
  | cons m ms =>
    simp only [List.length_map, List.length_cons]
    omega

/-- Filtering the contribution of a left row by a key value keeps everything
or nothing, according to the key of the left row itself. -/
theorem filter_mergeRowsOne {r : Table} {keys extra lcols : List String}
    {kv : List (Option Value)} {lr : List Value}
    (hlen : lr.length = lcols.length) (hkl : ∀ k ∈ keys, k ∈ lcols) :
    (mergeRowsOne r keys lcols lr).filter (hasKeyB (lcols ++ extra) keys kv)
      = if hasKeyB lcols keys kv lr = true then mergeRowsOne r keys lcols lr else [] := by
  unfold mergeRowsOne
  cases hms : r.rows.filter (hasKeyB r.cols keys (rowKeyOf lcols keys lr)) with
  | nil =>
    rw [List.filter_cons]
    rw [hasKeyB_append hlen hkl]
    split <;> simp_all
  | cons m ms =>
    rw [List.filter_map]
    have hpt : ∀ rr, (hasKeyB (lcols ++ extra) keys kv ∘ fun rr => lr ++ nonKeyVals r.cols keys rr) rr
        = hasKeyB lcols keys kv lr := by
      intro rr
      simp only [Function.comp]
      exact hasKeyB_append hlen hkl
    split
    · rename_i hk
      have : List.filter (hasKeyB (lcols ++ extra) keys kv ∘ fun rr => lr ++ nonKeyVals r.cols keys rr) (m :: ms)
          = m :: ms := by
        apply List.filter_eq_self.mpr
        intro a _
        rw [hpt a, hk]
      rw [this]
    · rename_i hk
      have : List.filter (hasKeyB (lcols ++ extra) keys kv ∘ fun rr => lr ++ nonKeyVals r.cols keys rr) (m :: ms)
          = [] := by
        apply List.filter_eq_nil_iff.mpr
        intro a _
        rw [hpt a]
        simpa using hk
      rw [this, List.map_nil]

theorem filter_flatMap_general {α β : Type} (p : β → Bool) (f : α → List β) (l : List α) :
    (l.flatMap f).filter p = l.flatMap (fun a => (f a).filter p) := by
  induction l with
  | nil => rfl
  | cons a as ih => simp [List.flatMap_cons, List.filter_append, ih]

theorem flatMap_ite {α : Type} (p : List α → Bool) (f : List α → List (List α)) (rows : List (List α)) :
    rows.flatMap (fun lr => if p lr = true then f lr else [])
      = (rows.filter p).flatMap f := by
  induction rows with
  | nil => rfl
  | cons a as ih =>
    by_cases hp : p a = true
    · simp [List.flatMap_cons, List.filter_cons, hp, ih]
    · simp only [List.flatMap_cons, List.filter_cons, if_neg hp, List.nil_append, ih]

theorem flatMap_congr_mem {α β : Type} {l : List α} {f g : α → List β}
    (h : ∀ a ∈ l, f a = g a) : l.flatMap f = l.flatMap g := by
  induction l with
  | nil => rfl
  | cons a as ih =>
    rw [List.flatMap_cons, List.flatMap_cons, h a (List.mem_cons_self a as),
      ih (fun x hx => h x (List.mem_cons_of_mem a hx))]

/-- Aggregated fan-out: filtering the joined rows by a key value counts each
matching left row `max(M,1)` times, `M` the number of matching right rows. -/
theorem mergeCount_aux {r : Table} {keys extra lcols : List String} {kv : List (Option Value)}
    (hkl : ∀ k ∈ keys, k ∈ lcols) :
    ∀ rows : List (List Value), (∀ lr ∈ rows, lr.length = lcols.length) →
      ((rows.flatMap (mergeRowsOne r keys lcols)).filter (hasKeyB (lcols ++ extra) keys kv)).length
        = (rows.filter (hasKeyB lcols keys kv)).length
            * max (r.rows.filter (hasKeyB r.cols keys kv)).length 1 := by
  intro rows
  induction rows with
  | nil => intro _; simp
  | cons lr rest ih =>
    intro hwf
    have hlen : lr.length = lcols.length := hwf lr (List.mem_cons_self lr rest)
    rw [List.flatMap_cons, List.filter_append, List.length_append,
      @filter_mergeRowsOne r keys extra lcols kv lr hlen hkl, List.filter_cons]
    by_cases hk : hasKeyB lcols keys kv lr = true
    · have hkey : rowKeyOf lcols keys lr = kv := of_decide_eq_true hk
      rw [if_pos hk, if_pos hk, mergeRowsOne_length, hkey, List.length_cons,
        ih (fun x hx => hwf x (List.mem_cons_of_mem lr hx))]
      ring
    · rw [if_neg hk, if_neg hk, ih (fun x hx => hwf x (List.mem_cons_of_mem lr hx))]
      simp

/-- The joined-before-dedup count of rows carrying key value `kv` is the
left count times `max(M,1)`. -/
theorem countKey_mergeT {l r m : Table} {keys : List String} {kv : List (Option Value)}
    (hwl : wfB l = true) (hdisj : disjointB l.cols r.cols keys = true)
    (hm : mergeT l r keys = .ok m) :
    countKey m keys kv = countKey l keys kv * max (countKey r keys kv) 1 := by
  obtain ⟨hcols, hrows, hkl, _⟩ := mergeT_ok_elim hm
  unfold countKey
  rw [hcols, hrows, mergedCols_of_disjoint hdisj]
  exact mergeCount_aux hkl l.rows (fun lr hlr => wfB_len hwl hlr)

theorem wfB_mergeT {l r m : Table} {keys : List String}
    (hwl : wfB l = true) (hwr : wfB r = true) (hm : mergeT l r keys = .ok m) :
    wfB m = true := by
  obtain ⟨hcols, hrows, _, _⟩ := mergeT_ok_elim hm
  apply List.all_eq_true.mpr
  intro x hx
  rw [hrows] at hx
  rcases List.mem_flatMap.mp hx with ⟨lr, hlr, hxin⟩
  have hlen : lr.length = l.cols.length := wfB_len hwl hlr
  have hclen : m.cols.length = l.cols.length + (nonKeyCols r.cols keys).length := by
    rw [hcols]
    unfold mergedCols
    rw [List.length_append, List.length_map, List.length_map]
  apply beq_iff_eq.mpr
  unfold mergeRowsOne at hxin
  cases hms : r.rows.filter (hasKeyB r.cols keys (rowKeyOf l.cols keys lr)) with
  | nil =>
    rw [hms] at hxin
    simp only [List.mem_singleton] at hxin
    subst hxin
    rw [List.length_append, List.length_replicate, hlen, hclen]
  | cons mm mms =>
    rw [hms] at hxin
    rcases List.mem_map.mp hxin with ⟨rr, hrr, rfl⟩
    have hrrs : rr ∈ r.rows := by
      have : rr ∈ r.rows.filter (hasKeyB r.cols keys (rowKeyOf l.cols keys lr)) := by
        rw [hms]
        exact hrr
      exact (List.mem_filter.mp this).1
    rw [List.length_append, hlen, nonKeyVals_length (wfB_len hwr hrrs), hclen]

/-- When exactly one left row carries `kv` and no right row matches it, the
joined rows carrying `kv` are exactly the one null-padded row. -/
theorem filter_mergeT_nullfill {l r m : Table} {keys : List String}
    {kv : List (Option Value)} {fr : List Value}
    (hwl : wfB l = true) (hdisj : disjointB l.cols r.cols keys = true)
    (hm : mergeT l r keys = .ok m)
    (hone : l.rows.filter (hasKeyB l.cols keys kv) = [fr])
    (hzero : (r.rows.filter (hasKeyB r.cols keys kv)).length = 0) :
    m.rows.filter (hasKeyB m.cols keys kv)
      = [fr ++ List.replicate (nonKeyCols r.cols keys).length Value.null] := by
  obtain ⟨hcols, hrows, hkl, _⟩ := mergeT_ok_elim hm
  rw [hcols, hrows, mergedCols_of_disjoint hdisj]
  rw [filter_flatMap_general]
  have hstep : ∀ lr ∈ l.rows,
      (mergeRowsOne r keys l.cols lr).filter
          (hasKeyB (l.cols ++ nonKeyCols r.cols keys) keys kv)
        = if hasKeyB l.cols keys kv lr = true then mergeRowsOne r keys l.cols lr else [] := by
    intro lr hlr
    exact filter_mergeRowsOne (wfB_len hwl hlr) hkl
  rw [flatMap_congr_mem hstep, flatMap_ite, hone, List.flatMap_cons, List.flatMap_nil,
    List.append_nil]
  have hfr : fr ∈ l.rows.filter (hasKeyB l.cols keys kv) := by
    rw [hone]
    exact List.mem_singleton.mpr rfl
  have hkey : rowKeyOf l.cols keys fr = kv :=
    of_decide_eq_true (List.mem_filter.mp hfr).2
  have hnil : r.rows.filter (hasKeyB r.cols keys (rowKeyOf l.cols keys fr)) = [] := by
    rw [hkey]
    exact List.length_eq_zero.mp hzero
  unfold mergeRowsOne
  rw [hnil]

/-! ## Lemmas: dedup -/

theorem mem_dedupRows {l : List (List Value)} {x : List Value} :
    x ∈ dedupRows l ↔ x ∈ l := by
  induction l with
  | nil => simp [dedupRows]
  | cons r rs ih =>
    simp only [dedupRows, List.mem_cons, List.mem_filter, ih]
    constructor
    · rintro (rfl | ⟨hx, _⟩)
      · exact Or.inl rfl
      · exact Or.inr hx
    · rintro (rfl | hx)
      · exact Or.inl rfl
      · by_cases hxr : x = r
        · exact Or.inl hxr
        · exact Or.inr ⟨hx, decide_eq_true hxr⟩

theorem hasDupB_filter {l : List (List Value)} (q : List Value → Bool)
    (h : hasDupB l = false) : hasDupB (l.filter q) = false := by
  induction l with
  | nil => rfl
  | cons r rs ih =>
    simp only [hasDupB, Bool.or_eq_false_iff] at h
    rw [List.filter_cons]
    by_cases hq : q r = true
    · rw [if_pos hq]
      simp only [hasDupB, Bool.or_eq_false_iff]
      refine ⟨?_, ih h.2⟩
      apply List.any_eq_false.mpr
      intro y hy
      have hyr := List.any_eq_false.mp h.1 y (List.mem_filter.mp hy).1
      simpa using hyr
    · rw [if_neg hq]
      exact ih h.2

theorem hasDupB_dedupRows (l : List (List Value)) : hasDupB (dedupRows l) = false := by
  induction l with
  | nil => rfl
  | cons r rs ih =>
    simp only [dedupRows, hasDupB, Bool.or_eq_false_iff]
    constructor
    · apply List.any_eq_false.mpr
      intro y hy
      have hyr := (List.mem_filter.mp hy).2
      simp only [decide_eq_true_eq] at hyr
      simpa using hyr
    · exact hasDupB_filter _ ih

/-- A unique row for a predicate survives dedup uniquely. -/
theorem filter_dedupRows_singleton {l : List (List Value)} {p : List Value → Bool}
    {x : List Value} (h : l.filter p = [x]) : (dedupRows l).filter p = [x] := by
  have hmem : ∀ y, y ∈ (dedupRows l).filter p ↔ y = x := by
    intro y
    rw [List.mem_filter, mem_dedupRows, ← List.mem_filter, h]
    simp
  have hnodup : hasDupB ((dedupRows l).filter p) = false :=
    hasDupB_filter p (hasDupB_dedupRows l)
  cases hfl : (dedupRows l).filter p with
  | nil =>
    exfalso
    have hx : x ∈ (dedupRows l).filter p := (hmem x).mpr rfl
    rw [hfl] at hx
    cases hx
  | cons a as =>
    have ha : a = x := by
      apply (hmem a).mp
      rw [hfl]
      exact List.mem_cons_self a as
    cases as with
    | nil => rw [ha]
    | cons b bs =>
      exfalso
      have hb : b = x := by
        apply (hmem b).mp
        rw [hfl]
        exact List.mem_cons_of_mem a (List.mem_cons_self b bs)
      rw [hfl] at hnodup
      simp only [hasDupB, Bool.or_eq_false_iff, List.any_eq_false] at hnodup
      have := hnodup.1 b (List.mem_cons_self b bs)
      rw [hb, ha] at this
      simp at this

theorem wfB_dedup {t : Table} (h : wfB t = true) :
    wfB ⟨t.cols, dedupRows t.rows⟩ = true := by
  apply List.all_eq_true.mpr
  intro x hx
  exact List.all_eq_true.mp h x (mem_dedupRows.mp hx)

/-! ## Lemmas: the post-merge steps -/

theorem colIdx_mem {cols : List String} {c : String} {i : Nat}
    (h : colIdx cols c = some i) : c ∈ cols := by
  have hg := colIdx_getElem? h
  rcases List.getElem?_eq_some_iff.mp hg with ⟨hlt, heq⟩
  exact heq ▸ List.getElem_mem hlt

/-- A lookup of a name that does not occur among appended columns is
unaffected by appending them. -/
theorem getCell_append_not_mem {cols xs : List String} {r ys : List Value} {k : String}
    (hlen : r.length = cols.length) (hxs : ¬ k ∈ xs) :
    getCell (cols ++ xs) (r ++ ys) k = getCell cols r k := by
  cases hc : colIdx cols k with
  | some i => exact getCell_append hlen (colIdx_mem hc)
  | none =>
    rw [getCell_append_right hlen (colIdx_eq_none_iff.mp hc)]
    rw [getCell_of_colIdx_none (colIdx_eq_none_iff.mpr hxs),
      getCell_of_colIdx_none hc]

theorem wfB_normalize {t : Table} (h : wfB t = true) :
    wfB (normalizeTable t) = true := by
  apply List.all_eq_true.mpr
  intro x hx
  rcases List.mem_map.mp hx with ⟨r, hr, rfl⟩
  apply beq_iff_eq.mpr
  rw [normRow_length]
  exact wfB_len h hr

/-- Normalization does not move cells of columns outside the four datetime
columns. -/
theorem getCell_normRow_safe {cols : List String} {k : String}
    (hk : ∀ c ∈ datetimeCols, ¬ c = k) (r : List Value) :
    getCell cols (normRow (datetimeCols.filterMap (colIdx cols)) r) k
      = getCell cols r k := by
  cases hc : colIdx cols k with
  | none => rw [getCell_of_colIdx_none hc, getCell_of_colIdx_none hc]
  | some ik =>
    rw [getCell_of_colIdx_some hc, getCell_of_colIdx_some hc]
    apply normRow_getElem?_ne
    intro i hi
    rcases List.mem_filterMap.mp hi with ⟨c, hcdt, hci⟩
    intro hik
    subst hik
    have h1 := colIdx_getElem? hci
    have h2 := colIdx_getElem? hc
    rw [h1] at h2
    exact hk c hcdt (Option.some.inj h2)

theorem deriveDelays_ok_elim {t t2 : Table} (h : deriveDelays t = .ok t2) :
    ∃ ia isd iaa isa,
      colIdx t.cols actualDepCol = some ia ∧ colIdx t.cols schedDepCol = some isd
      ∧ colIdx t.cols actualArrCol = some iaa ∧ colIdx t.cols schedArrCol = some isa
      ∧ t2.cols = t.cols ++ [depDelayCol, arrDelayCol]
      ∧ t2.rows = t.rows.map (fun r =>
          r ++ [delayCell (r.getD ia Value.null) (r.getD isd Value.null),
                delayCell (r.getD iaa Value.null) (r.getD isa Value.null)]) := by
  unfold deriveDelays at h
  split at h
  · rename_i ia isd iaa isa h1 h2 h3 h4
    cases h
    exact ⟨ia, isd, iaa, isa, h1, h2, h3, h4, rfl, rfl⟩
  · cases h

theorem wfB_deriveDelays {t t2 : Table} (hwf : wfB t = true)
    (h : deriveDelays t = .ok t2) : wfB t2 = true := by
  rcases deriveDelays_ok_elim h with ⟨ia, isd, iaa, isa, _, _, _, _, hcols, hrows⟩
  apply List.all_eq_true.mpr
  intro x hx
  rw [hrows] at hx
  rcases List.mem_map.mp hx with ⟨r, hr, rfl⟩
  apply beq_iff_eq.mpr
  rw [List.length_append, hcols, List.length_append, wfB_len hwf hr]
  rfl

/-- If the pipeline renames a detected column, lookups of names that do not
match the difficulty heuristic and differ from the new name are unchanged. -/
theorem rename_pred_congr {c d : String} (hd : matchesDifficulty d = true)
    (hc : matchesDifficulty c = false) (hfds : ¬ flightDifficultyCol = c) :
    ∀ x, ((if x == d then flightDifficultyCol else x) == c) = (x == c) := by
  intro x
  by_cases hx : (x == d) = true
  · rw [if_pos hx]
    have hxd : x = d := beq_iff_eq.mp hx
    have h1 : (flightDifficultyCol == c) = false := beq_eq_false_iff_ne.mpr hfds
    have h2 : (x == c) = false := by
      apply beq_eq_false_iff_ne.mpr
      intro hxc
      rw [hxc] at hxd
      rw [hxd] at hc
      rw [hd] at hc
      cases hc
    rw [h1, h2]
  · rw [if_neg hx]

theorem head?_filter_matches {l : List String} {p : String → Bool} {c : String}
    (h : (l.filter p).head? = some c) : p c = true ∧ c ∈ l := by
  cases hl : l.filter p with
  | nil => rw [hl] at h; cases h
  | cons a as =>
    rw [hl] at h
    have hac : a = c := Option.some.inj h
    have hmem : a ∈ l.filter p := by
      rw [hl]
      exact List.mem_cons_self a as
    rcases List.mem_filter.mp hmem with ⟨hml, hpa⟩
    subst hac
    exact ⟨hpa, hml⟩

theorem mem_addRand {rand : Nat → Nat} :
    ∀ {i : Nat} {rows : List (List Value)} {row' : List Value},
      row' ∈ addRand rand i rows →
      ∃ r ∈ rows, ∃ j, row' = r ++ [Value.int (Int.ofNat (1 + rand j % 99))] := by
  intro i rows
  induction rows generalizing i with
  | nil => intro row' h; cases h
  | cons r rs ih =>
    intro row' h
    rcases List.mem_cons.mp h with hh | hh
    · exact ⟨r, List.mem_cons_self r rs, i, hh⟩
    · rcases ih hh with ⟨r0, hr0, j, hj⟩
      exact ⟨r0, List.mem_cons_of_mem r hr0, j, hj⟩

theorem filter_length_addRand {rand : Nat → Nat} {p q : List Value → Bool} :
    ∀ (i : Nat) (rows : List (List Value)),
      (∀ r ∈ rows, ∀ v : Value, p (r ++ [v]) = q r) →
      ((addRand rand i rows).filter p).length = (rows.filter q).length := by
  intro i rows
  induction rows generalizing i with
  | nil => intro _; rfl
  | cons r rs ih =>
    intro h
    simp only [addRand, List.filter_cons]
    rw [h r (List.mem_cons_self r rs)]
    by_cases hq : q r = true
    · rw [if_pos hq, if_pos hq, List.length_cons, List.length_cons,
        ih (i + 1) (fun x hx v => h x (List.mem_cons_of_mem r hx) v)]
    · rw [if_neg hq, if_neg hq, ih (i + 1) (fun x hx v => h x (List.mem_cons_of_mem r hx) v)]

theorem filter_length_map_congr {f : List Value → List Value} {p q : List Value → Bool}
    {rows : List (List Value)} (h : ∀ r ∈ rows, p (f r) = q r) :
    ((rows.map f).filter p).length = (rows.filter q).length := by
  rw [List.filter_map, List.length_map]
  exact congrArg List.length (List.filter_congr h)

theorem resolveDifficulty_elim {rand : Nat → Nat} {t m : Table} {note : Option String}
    {warn : Bool} (h : resolveDifficulty rand t = (m, note, warn)) :
    (∃ c, (t.cols.filter matchesDifficulty).head? = some c
      ∧ m.cols = t.cols.map (fun x => if x == c then flightDifficultyCol else x)
      ∧ m.rows = t.rows ∧ note = some c ∧ warn = false)
    ∨ ((t.cols.filter matchesDifficulty).head? = none
      ∧ m.cols = t.cols ++ [flightDifficultyCol]
      ∧ m.rows = addRand rand 0 t.rows ∧ note = none ∧ warn = true) := by
  unfold resolveDifficulty at h
  cases hd : (t.cols.filter matchesDifficulty).head? with
  | some c =>
    rw [hd] at h
    rw [Prod.mk.injEq, Prod.mk.injEq] at h
    obtain ⟨hmm, hnote, hwarn⟩ := h
    subst hmm
    subst hnote
    subst hwarn
    exact Or.inl ⟨c, rfl, rfl, rfl, rfl, rfl⟩
  | none =>
    rw [hd] at h
    rw [Prod.mk.injEq, Prod.mk.injEq] at h
    obtain ⟨hmm, hnote, hwarn⟩ := h
    subst hmm
    subst hnote
    subst hwarn
    exact Or.inr ⟨rfl, rfl, rfl, rfl, rfl⟩

theorem hasKeyB_congr_of_getCell {cols1 cols2 keys : List String}
    {kv : List (Option Value)} {r1 r2 : List Value}
    (h : ∀ k ∈ keys, getCell cols1 r1 k = getCell cols2 r2 k) :
    hasKeyB cols1 keys kv r1 = hasKeyB cols2 keys kv r2 := by
  unfold hasKeyB rowKeyOf
  rw [List.map_congr_left h]

/-- Steps 5-7 never change which rows carry a given composite-key value. -/
theorem countKey_postProcess {rand : Nat → Nat} {t m : Table} {note : Option String}
    {warn : Bool} {kv : List (Option Value)}
    (hwf : wfB t = true) (h : postProcess rand t = .ok (m, note, warn)) :
    countKey m joinKeys kv = countKey t joinKeys kv := by
  have hkdt : ∀ k ∈ joinKeys, ∀ c ∈ datetimeCols, ¬ c = k := by decide
  have hkda : ∀ k ∈ joinKeys, ¬ k ∈ [depDelayCol, arrDelayCol] := by decide
  have hkm : ∀ k ∈ joinKeys, matchesDifficulty k = false := by decide
  have hkf : ∀ k ∈ joinKeys, ¬ flightDifficultyCol = k := by decide
  unfold postProcess at h
  cases hdd : deriveDelays (normalizeTable t) with
  | error e => rw [hdd] at h; cases h
  | ok t2 =>
    rw [hdd] at h
    have hres : resolveDifficulty rand t2 = (m, note, warn) := Except.ok.inj h
    have hwfn : wfB (normalizeTable t) = true := wfB_normalize hwf
    have h1 : countKey (normalizeTable t) joinKeys kv = countKey t joinKeys kv := by
      unfold countKey normalizeTable
      apply filter_length_map_congr
      intro r _
      apply hasKeyB_congr_of_getCell
      intro k hk
      exact getCell_normRow_safe (fun c hc => hkdt k hk c hc) r
    rcases deriveDelays_ok_elim hdd with ⟨ia, isd, iaa, isa, _, _, _, _, hcols2, hrows2⟩
    have h2 : countKey t2 joinKeys kv = countKey (normalizeTable t) joinKeys kv := by
      unfold countKey
      rw [hcols2, hrows2]
      apply filter_length_map_congr
      intro r hr
      apply hasKeyB_congr_of_getCell
      intro k hk
      exact getCell_append_not_mem (wfB_len hwfn hr) (hkda k hk)
    have hwf2 : wfB t2 = true := wfB_deriveDelays hwfn hdd
    have h3 : countKey m joinKeys kv = countKey t2 joinKeys kv := by
      rcases resolveDifficulty_elim hres with ⟨c, hd, hc, hr, _, _⟩ | ⟨hd, hc, hr, _, _⟩
      · unfold countKey
        rw [hc, hr]
        apply congrArg List.length
        apply List.filter_congr
        intro r hrr
        apply hasKeyB_congr_of_getCell
        intro k hk
        apply getCell_map_congr
        exact rename_pred_congr (head?_filter_matches hd).1 (hkm k hk) (hkf k hk)
      · unfold countKey
        rw [hc, hr]
        apply filter_length_addRand
        intro r hrr v
        apply hasKeyB_congr_of_getCell
        intro k hk
        apply getCell_append_not_mem (wfB_len hwf2 hrr)
        intro hx
        have hkx : k = flightDifficultyCol := by simpa using hx
        exact hkf k hk hkx.symm
    rw [h3, h2, h1]

/-! ## Lemmas: downsampling -/

theorem sampleK_length : ∀ (k s : Nat) (rows : List (List Value)),
    k ≤ rows.length → (sampleK k s rows).length = k := by
  intro k
  induction k with
  | zero => intro s rows _; rfl
  | succ n ih =>
    intro s rows hk
    cases rows with
    | nil => simp at hk
    | cons r rs =>
      have hpos : 0 < (r :: rs).length := by simp
      have hi : lcgNext s % (r :: rs).length < (r :: rs).length := Nat.mod_lt _ hpos
      have hb : n ≤ ((r :: rs).eraseIdx (lcgNext s % (r :: rs).length)).length := by
        rw [List.length_eraseIdx, if_pos hi]
        omega
      simp only [sampleK]
      rw [List.length_cons, ih (lcgNext s) _ hb]

theorem sampleK_mem : ∀ (k s : Nat) (rows : List (List Value)) (r : List Value),
    r ∈ sampleK k s rows → r ∈ rows := by
  intro k
  induction k with
  | zero => intro s rows r h; cases h
  | succ n ih =>
    intro s rows r h
    cases rows with
    | nil => cases h
    | cons r0 rs =>
      have hpos : 0 < (r0 :: rs).length := by simp
      have hi : lcgNext s % (r0 :: rs).length < (r0 :: rs).length := Nat.mod_lt _ hpos
      simp only [sampleK] at h
      rcases List.mem_cons.mp h with hh | hh
      · rw [hh, List.getD_eq_getElem _ _ hi]
        exact List.getElem_mem hi
      · exact List.mem_of_mem_eraseIdx (ih _ _ r hh)

/-! ## Lemmas: misc helpers -/

theorem head?_filter_eq_find? (p : String → Bool) (l : List String) :
    (l.filter p).head? = l.find? p := by
  induction l with
  | nil => rfl
  | cons a as ih =>
    rw [List.filter_cons]
    by_cases hp : p a = true
    · rw [if_pos hp, List.find?_cons_of_pos as hp]
      rfl
    · rw [if_neg hp, List.find?_cons_of_neg as hp, ih]

theorem delayVal_some (v w : Value) : delayVal (some v) (some w) = delayCell v w := by
  cases v <;> cases w <;> rfl

/-- Reading the first appended delay cell. -/
theorem getCell_delays_fst {cols : List String} {r : List Value}
    (hdep : ¬ depDelayCol ∈ cols) (hlen : r.length = cols.length) (d a : Value) :
    getCell (cols ++ [depDelayCol, arrDelayCol]) (r ++ [d, a]) depDelayCol = some d := by
  rw [getCell_append_right hlen hdep]
  simp [getCell, colIdx]

/-- Reading the second appended delay cell. -/
theorem getCell_delays_snd {cols : List String} {r : List Value}
    (harr : ¬ arrDelayCol ∈ cols) (hlen : r.length = cols.length) (d a : Value) :
    getCell (cols ++ [depDelayCol, arrDelayCol]) (r ++ [d, a]) arrDelayCol = some a := by
  rw [getCell_append_right hlen harr]
  have hne : (depDelayCol == arrDelayCol) = false := by decide
  simp [getCell, colIdx, hne]

/-- The cell of a present column, by its index. -/
theorem getCell_delays_operand {cols : List String} {r : List Value} {x : String} {i : Nat}
    (hx : colIdx cols x = some i) (hlen : r.length = cols.length) (d a : Value) :
    getCell (cols ++ [depDelayCol, arrDelayCol]) (r ++ [d, a]) x = some (r.getD i Value.null) := by
  rw [getCell_append hlen (colIdx_mem hx), getCell_of_colIdx_some hx]
  have hi : i < r.length := by rw [hlen]; exact colIdx_lt_length hx
  rw [List.getD_eq_getElem _ _ hi]
  exact List.getElem?_eq_some_iff.mpr ⟨hi, rfl⟩

theorem runPipeline_ok_elim {src : Sources} {rand : Nat → Nat}
    {f p b rm ap m : Table} {note : Option String} {warn : Bool}
    (h : runPipeline src rand = .ok (f, p, b, rm, ap, m, note, warn)) :
    ∃ ft pt bt, src.flight = .ok ft ∧ src.pnr = .ok pt ∧ src.bag = .ok bt
      ∧ src.remark = .ok rm ∧ src.airport = .ok ap
      ∧ f = sampleIfBig ft ∧ p = sampleIfBig pt ∧ b = sampleIfBig bt := by
  unfold runPipeline at h
  cases hft : src.flight with
  | error e => rw [hft] at h; simp [Bind.bind, Except.instMonad, Except.bind] at h
  | ok ft =>
  rw [hft] at h
  cases hpt : src.pnr with
  | error e => rw [hpt] at h; simp [Bind.bind, Except.instMonad, Except.bind] at h
  | ok pt =>
  rw [hpt] at h
  cases hbt : src.bag with
  | error e => rw [hbt] at h; simp [Bind.bind, Except.instMonad, Except.bind] at h
  | ok bt =>
  rw [hbt] at h
  cases hrt : src.remark with
  | error e => rw [hrt] at h; simp [Bind.bind, Except.instMonad, Except.bind] at h
  | ok rt =>
  rw [hrt] at h
  cases hat : src.airport with
  | error e => rw [hat] at h; simp [Bind.bind, Except.instMonad, Except.bind] at h
  | ok at2 =>
  rw [hat] at h
  simp only [Bind.bind, Except.instMonad, Except.bind] at h
  cases hm1 : mergeT (sampleIfBig ft) (sampleIfBig pt) joinKeys with
  | error e => rw [hm1] at h; simp [Bind.bind, Except.instMonad, Except.bind, Except.mapError] at h
  | ok m1 =>
  rw [hm1] at h
  simp only [Except.mapError] at h
  cases hm2 : mergeT m1 (sampleIfBig bt) joinKeys with
  | error e => rw [hm2] at h; simp [Bind.bind, Except.instMonad, Except.bind, Except.mapError] at h
  | ok m2 =>
  rw [hm2] at h
  simp only [Except.mapError] at h
  cases hpp : postProcess rand { cols := m2.cols, rows := dedupRows m2.rows } with
  | error e => rw [hpp] at h; cases h
  | ok out =>
  rw [hpp] at h
  obtain ⟨o1, o2, o3⟩ := out
  simp only [Except.ok.injEq, Prod.mk.injEq] at h
  obtain ⟨h1, h2, h3, h4, h5, h6, h7, h8⟩ := h
  exact ⟨ft, pt, bt, rfl, rfl, rfl, h4.symm ▸ rfl, h5.symm ▸ rfl, h1.symm, h2.symm, h3.symm⟩

/-! ## Claim theorems -/

/-- C2: difficulty-score resolution.  If some merged column name contains
"difficulty" or "score" case-insensitively, the first such column in column
order is renamed to `flight_difficulty_score` (and only columns bearing that
name are touched), a note records the original name and no warning or
synthesis happens; if none matches, a fresh `flight_difficulty_score` column
is appended whose every cell is an integer in `[1, 100)`, with a warning.
Afterwards the column is always present, from exactly one of the two
sources. -/
theorem c2_difficulty_resolution (rand : Nat → Nat) (t : Table) (hwf : wfB t = true) :
    (∀ c, t.cols.find? matchesDifficulty = some c →
      resolveDifficulty rand t
        = ({ cols := t.cols.map (fun x => if x == c then flightDifficultyCol else x),
             rows := t.rows }, some c, false))
    ∧ (t.cols.find? matchesDifficulty = none →
      (resolveDifficulty rand t).2.1 = none
      ∧ (resolveDifficulty rand t).2.2 = true
      ∧ (resolveDifficulty rand t).1.cols = t.cols ++ [flightDifficultyCol]
      ∧ ∀ r ∈ (resolveDifficulty rand t).1.rows,
          ∃ v : Int, getCell (resolveDifficulty rand t).1.cols r flightDifficultyCol
              = some (Value.int v) ∧ 1 ≤ v ∧ v < 100)
    ∧ flightDifficultyCol ∈ (resolveDifficulty rand t).1.cols
    ∧ (resolveDifficulty rand t).2.1.isSome = !(resolveDifficulty rand t).2.2 := by
  refine ⟨?_, ?_, ?_, ?_⟩
  · intro c hc
    unfold resolveDifficulty
    rw [head?_filter_eq_find?, hc]
  · intro hc
    have hd : (t.cols.filter matchesDifficulty).head? = none := by
      rw [head?_filter_eq_find?, hc]
    have hshape : resolveDifficulty rand t
        = ({ cols := t.cols ++ [flightDifficultyCol], rows := addRand rand 0 t.rows },
           none, true) := by
      unfold resolveDifficulty
      rw [hd]
    rw [hshape]
    refine ⟨rfl, rfl, rfl, ?_⟩
    intro r hr
    rcases mem_addRand hr with ⟨r0, hr0, j, rfl⟩
    have hfds : ¬ flightDifficultyCol ∈ t.cols := by
      intro hmem
      have := List.find?_eq_none.mp hc flightDifficultyCol hmem
      exact this (by decide)
    have hci : colIdx (t.cols ++ [flightDifficultyCol]) flightDifficultyCol
        = some (0 + t.cols.length) := by
      rw [colIdx_append_none (colIdx_eq_none_iff.mpr hfds)]
      rfl
    refine ⟨Int.ofNat (1 + rand j % 99), ?_, ?_, ?_⟩
    · rw [getCell_of_colIdx_some hci]
      have hlen : r0.length = t.cols.length := wfB_len hwf hr0
      rw [Nat.zero_add, ← hlen]
      exact List.getElem?_concat_length r0 _
    · exact Int.ofNat_le.mpr (Nat.le_add_right 1 (rand j % 99))
    · have hm : rand j % 99 < 99 := Nat.mod_lt _ (by omega)
      have hcast : Int.ofNat (1 + rand j % 99) = ((1 + rand j % 99 : Nat) : Int) := rfl
      rw [hcast]
      omega
  · cases hc : t.cols.find? matchesDifficulty with
    | some c =>
      have hshape : (resolveDifficulty rand t).1.cols
          = t.cols.map (fun x => if x == c then flightDifficultyCol else x) := by
        unfold resolveDifficulty
        rw [head?_filter_eq_find?, hc]
      rw [hshape]
      have hcm : c ∈ t.cols := List.mem_of_find?_eq_some hc
      exact List.mem_map.mpr ⟨c, hcm, by simp⟩
    | none =>
      have hshape : (resolveDifficulty rand t).1.cols
          = t.cols ++ [flightDifficultyCol] := by
        unfold resolveDifficulty
        rw [head?_filter_eq_find?, hc]
      rw [hshape]
      simp
  · cases hc : t.cols.find? matchesDifficulty with
    | some c =>
      have : resolveDifficulty rand t
          = ({ cols := t.cols.map (fun x => if x == c then flightDifficultyCol else x),
               rows := t.rows }, some c, false) := by
        unfold resolveDifficulty
        rw [head?_filter_eq_find?, hc]
      rw [this]
      rfl
    | none =>
      have : resolveDifficulty rand t
          = ({ cols := t.cols ++ [flightDifficultyCol], rows := addRand rand 0 t.rows },
             none, true) := by
        unfold resolveDifficulty
        rw [head?_filter_eq_find?, hc]
      rw [this]
      rfl

/-- C2 witness: on columns `["score_v1", "difficulty_raw"]` the first match
`score_v1` is selected and renamed; on a table with no matching column the
synthetic branch appends the column with a warning. -/
theorem c2_difficulty_resolution_witness :
    resolveDifficulty rand0 tC2a
      = ({ cols := ["flight_difficulty_score", "difficulty_raw"], rows := tC2a.rows },
         some "score_v1", false)
    ∧ (resolveDifficulty rand0 tC2b).2.2 = true
    ∧ (resolveDifficulty rand0 tC2b).1.cols = tC2b.cols ++ [flightDifficultyCol] := by
  refine ⟨?_, ?_, ?_⟩
  · have h := (c2_difficulty_resolution rand0 tC2a (by decide)).1 "score_v1" (by decide)
    rw [h]
    rfl
  · exact ((c2_difficulty_resolution rand0 tC2b (by decide)).2.1 (by decide)).2.1
  · exact ((c2_difficulty_resolution rand0 tC2b (by decide)).2.1 (by decide)).2.2.1

/-- C9: the on-time KPI counts rows with departure delay at most 15 minutes
(15 itself on-time); over the delays `[10, 20, 0]` it is `200/3` percent,
displayed to one decimal as `66.7`. -/
theorem c9_on_time_kpi :
    on_time_pct [10, 20, 0] = some (200 / 3)
    ∧ roundTo1 (200 / 3) = 667 / 10
    ∧ on_time_pct [15] = some 100
    ∧ on_time_pct [16] = some 0 := by
  refine ⟨?_, ?_, ?_, ?_⟩
  · unfold on_time_pct
    norm_num
  · unfold roundTo1
    norm_num [round_eq]
  · unfold on_time_pct
    norm_num
  · unfold on_time_pct
    norm_num

/-- C4 counterexample: a successful run whose final merged table contains two
exactly identical rows — dedup runs before timestamp coercion, and two rows
differing only in distinct unparseable `actual_departure` strings collapse
after coercion. -/
theorem c4_counterexample :
    (load_and_process_data srcC4 rand0).errorMsg = none
    ∧ hasDupB mergedC4.rows = true := by
  exact ⟨rfl, by decide⟩

/-- C4 amended: deduplication removes all exact duplicates from the joined
result at the point where it runs (immediately after the joins); the final
MergedFlightView can nevertheless contain exact duplicates, because the later
timestamp coercion may collapse rows that differed only in unparseable
timestamp text. -/
theorem c4_dedup_no_duplicates (rows : List (List Value)) :
    hasDupB (dedupRows rows) = false :=
  hasDupB_dedupRows rows

/-- C6: every load or merge failure is caught at the pipeline boundary and
converted into the uniform failure tuple — five `None` tables, an empty
merged table, and a displayed error message; no exception escapes. -/
theorem c6_failure_atomicity (src : Sources) (rand : Nat → Nat) (e : LoadErr)
    (h : runPipeline src rand = .error e) :
    load_and_process_data src rand
      = { flight? := none, pnr? := none, bag? := none, remark? := none, airport? := none,
          merged? := some emptyTable, errorMsg := some (errMsgOf e), note := none,
          warning := false } := by
  unfold load_and_process_data
  rw [h]

/-- C6 witness: a missing flight CSV aborts the whole run and yields the
uniform failure result with its message. -/
theorem c6_failure_atomicity_witness :
    runPipeline srcC6 rand0 = .error (.missingFile "clean_flight_data.csv")
    ∧ load_and_process_data srcC6 rand0
      = { flight? := none, pnr? := none, bag? := none, remark? := none, airport? := none,
          merged? := some emptyTable,
          errorMsg := some (errMsgOf (.missingFile "clean_flight_data.csv")), note := none,
          warning := false } :=
  ⟨rfl, c6_failure_atomicity srcC6 rand0 _ rfl⟩

/-- C10: on every failing run the five source slots are `None` but the merged
slot is an empty zero-column table rather than `None`, so the dashboard
test `df is not None` classifies the failed run as having data. -/
theorem c10_failure_merged_not_none (src : Sources) (rand : Nat → Nat) (e : LoadErr)
    (h : runPipeline src rand = .error e) :
    (load_and_process_data src rand).flight? = none
    ∧ (load_and_process_data src rand).pnr? = none
    ∧ (load_and_process_data src rand).bag? = none
    ∧ (load_and_process_data src rand).remark? = none
    ∧ (load_and_process_data src rand).airport? = none
    ∧ (load_and_process_data src rand).merged? = some emptyTable
    ∧ (load_and_process_data src rand).merged?.isSome = true := by
  unfold load_and_process_data
  rw [h]
  exact ⟨rfl, rfl, rfl, rfl, rfl, rfl, rfl⟩

/-- C10 witness: an unparseable PNR CSV fails the run; the merged slot is the
empty table and passes the `is not None` test. -/
theorem c10_failure_merged_not_none_witness :
    runPipeline srcC10 rand0 = .error (.otherErr "ParserError: bad CSV")
    ∧ (load_and_process_data srcC10 rand0).flight? = none
    ∧ (load_and_process_data srcC10 rand0).merged? = some emptyTable
    ∧ (load_and_process_data srcC10 rand0).merged?.isSome = true := by
  have h := c10_failure_merged_not_none srcC10 rand0 (.otherErr "ParserError: bad CSV") rfl
  exact ⟨rfl, h.1, h.2.2.2.2.2.1, h.2.2.2.2.2.2⟩

/-- C7 counterexample: on a clean input whose merged table merely lacks
`actual_departure_datetime_local`, the pipeline does not succeed with zero
delays — delay derivation raises `KeyError` and the run returns the uniform
failure result. -/
theorem c7_counterexample :
    (load_and_process_data srcC7 rand0).errorMsg
      = some (errMsgOf (.otherErr "KeyError: datetime column missing"))
    ∧ (load_and_process_data srcC7 rand0).flight? = none := by
  exact ⟨rfl, rfl⟩

/-- C7 amended: timestamp normalization itself is per-column-optional and
non-fatal — absent columns are skipped and unparseable values coerce to
missing — but delay derivation requires the datetime columns: a merged table
lacking `actual_departure_datetime_local` makes the post-merge steps fail, and
the pipeline returns the failure result instead of succeeding with zero
delays. -/
theorem c7_amended_normalization (rand : Nat → Nat) :
    (∀ t : Table, (normalizeTable t).cols = t.cols
      ∧ (normalizeTable t).rows.length = t.rows.length)
    ∧ (∀ s : String, parseDatetime s = none → coerceDatetime (.str s) = .null)
    ∧ (∀ t : Table, ¬ actualDepCol ∈ t.cols → ∃ e, postProcess rand t = .error e) := by
  refine ⟨?_, ?_, ?_⟩
  · intro t
    exact ⟨rfl, by simp [normalizeTable]⟩
  · intro s h
    simp [coerceDatetime, h]
  · intro t h
    have hn : colIdx (normalizeTable t).cols actualDepCol = none :=
      colIdx_eq_none_iff.mpr h
    refine ⟨"KeyError: datetime column missing", ?_⟩
    unfold postProcess deriveDelays
    rw [hn]

/-- C7 amended witness: a table with only unparseable scheduled timestamps and
no actual-departure column — normalization is non-fatal, but the pipeline
steps after the merge fail. -/
theorem c7_amended_normalization_witness :
    (normalizeTable tC7).cols = tC7.cols
    ∧ parseDatetime "bad" = none
    ∧ coerceDatetime (.str "bad") = .null
    ∧ (∃ e, postProcess rand0 tC7 = .error e) := by
  refine ⟨((c7_amended_normalization rand0).1 tC7).1, by decide, ?_, ?_⟩
  · exact (c7_amended_normalization rand0).2.1 "bad" (by decide)
  · exact (c7_amended_normalization rand0).2.2 tC7 (by decide)

/-- C8 (code bug): on a failing run the merged slot of the pipeline result is
an empty DataFrame, not `None`, so the guard `df is not None` passes and the
very first KPI computation raises `KeyError` on the missing
`departure_delay_mins` column — the page crashes instead of showing the
intended "no data" state. -/
theorem c8_kpi_crash_on_failure :
    (load_and_process_data srcC8 rand0).errorMsg.isSome = true
    ∧ (load_and_process_data srcC8 rand0).merged?.isSome = true
    ∧ kpiBlock (load_and_process_data srcC8 rand0).merged?
        = .error ("KeyError: " ++ depDelayCol) := by
  exact ⟨rfl, rfl, rfl⟩

/-- C5: deterministic downsampling.  Tables of at most 10,000 rows pass
through unchanged; a larger flight/PNR/bag table is replaced by a
fixed-seed sample of exactly 10,000 of its rows (positional row identity, so
the index is dense and 0-based); the sample is a pure function of the input,
so two runs agree; and on a successful run the remark and airport tables are
returned exactly as loaded while flight/PNR/bag are returned sampled. -/
theorem c5_downsample_determinism :
    (∀ t : Table, t.rows.length ≤ 10000 → sampleIfBig t = t)
    ∧ (∀ t : Table, 10000 < t.rows.length →
        (sampleIfBig t).rows.length = 10000 ∧ (sampleIfBig t).cols = t.cols
        ∧ ∀ r ∈ (sampleIfBig t).rows, r ∈ t.rows)
    ∧ (∀ t : Table, sampleIfBig t = sampleIfBig t)
    ∧ (∀ (src : Sources) (rand : Nat → Nat) f p b rm ap m note warn,
        runPipeline src rand = .ok (f, p, b, rm, ap, m, note, warn) →
        ∀ ft pt bt rt at2, src.flight = .ok ft → src.pnr = .ok pt → src.bag = .ok bt →
          src.remark = .ok rt → src.airport = .ok at2 →
          f = sampleIfBig ft ∧ p = sampleIfBig pt ∧ b = sampleIfBig bt
          ∧ rm = rt ∧ ap = at2) := by
  refine ⟨?_, ?_, ?_, ?_⟩
  · intro t h
    unfold sampleIfBig
    rw [if_neg (by omega)]
  · intro t h
    unfold sampleIfBig
    rw [if_pos h]
    refine ⟨sampleK_length 10000 42 t.rows (by omega), rfl, ?_⟩
    intro r hr
    exact sampleK_mem 10000 42 t.rows r hr
  · intro t
    rfl
  · intro src rand f p b rm ap m note warn h ft pt bt rt at2 hft hpt hbt hrt hat
    rcases runPipeline_ok_elim h with ⟨ft', pt', bt', h1, h2, h3, h4, h5, h6, h7, h8⟩
    rw [hft] at h1
    rw [hpt] at h2
    rw [hbt] at h3
    rw [hrt] at h4
    rw [hat] at h5
    obtain rfl := Except.ok.inj h1
    obtain rfl := Except.ok.inj h2
    obtain rfl := Except.ok.inj h3
    obtain rfl := Except.ok.inj h4
    obtain rfl := Except.ok.inj h5
    exact ⟨h6, h7, h8, rfl, rfl⟩

/-- C5 witness: a 10,001-row table is cut to exactly 10,000 rows; small
tables and a concrete successful run are untouched where required. -/
theorem c5_downsample_determinism_witness :
    sampleIfBig emptyTable = emptyTable
    ∧ 10000 < bigT.rows.length
    ∧ (sampleIfBig bigT).rows.length = 10000
    ∧ sampleIfBig bigT = sampleIfBig bigT
    ∧ runPipeline srcC5 rand0
        = .ok (flC3, keyOnlyT, keyOnlyT, emptyTable, emptyTable, mC5, noteC5, warnC5)
    ∧ flC3 = sampleIfBig flC3 := by
  have hbig : 10000 < bigT.rows.length := by
    show 10000 < (List.replicate 10001 [Value.int 0]).length
    rw [List.length_replicate]
    omega
  refine ⟨c5_downsample_determinism.1 emptyTable (by decide), hbig,
    (c5_downsample_determinism.2.1 bigT hbig).1,
    c5_downsample_determinism.2.2.1 bigT, rfl, ?_⟩
  exact (c5_downsample_determinism.2.2.2 srcC5 rand0 flC3 keyOnlyT keyOnlyT emptyTable
    emptyTable mC5 noteC5 warnC5 rfl flC3 keyOnlyT keyOnlyT emptyTable emptyTable
    rfl rfl rfl rfl rfl).1

/-- C1: in the final merged view of every successful post-merge run (the
merged table holding no pre-existing delay columns), for each row the value
`departure_delay_mins` equals the signed difference of its (normalized)
actual and scheduled departure timestamps in minutes, and `0` whenever either
operand is missing or was unparseable — never null; likewise for
`arrival_delay_mins`. -/
theorem c1_delay_derivation (rand : Nat → Nat) (t : Table) (hwf : wfB t = true)
    (hdep : ¬ depDelayCol ∈ t.cols) (harr : ¬ arrDelayCol ∈ t.cols)
    (m : Table) (note : Option String) (warn : Bool)
    (hok : postProcess rand t = .ok (m, note, warn)) :
    ∀ r ∈ m.rows,
      getCell m.cols r depDelayCol
        = some (delayVal (getCell m.cols r actualDepCol) (getCell m.cols r schedDepCol))
      ∧ getCell m.cols r arrDelayCol
        = some (delayVal (getCell m.cols r actualArrCol) (getCell m.cols r schedArrCol)) := by
  unfold postProcess at hok
  cases hdd : deriveDelays (normalizeTable t) with
  | error e => rw [hdd] at hok; cases hok
  | ok t2 =>
    rw [hdd] at hok
    have hres : resolveDifficulty rand t2 = (m, note, warn) := Except.ok.inj hok
    have hwfn := wfB_normalize hwf
    have hwf2 := wfB_deriveDelays hwfn hdd
    rcases deriveDelays_ok_elim hdd with ⟨ia, isd, iaa, isa, hia, hisd, hiaa, hisa, hcols2, hrows2⟩
    have hdepn : ¬ depDelayCol ∈ (normalizeTable t).cols := hdep
    have harrn : ¬ arrDelayCol ∈ (normalizeTable t).cols := harr
    have hcore : ∀ r2 ∈ t2.rows,
        getCell t2.cols r2 depDelayCol
          = some (delayVal (getCell t2.cols r2 actualDepCol) (getCell t2.cols r2 schedDepCol))
        ∧ getCell t2.cols r2 arrDelayCol
          = some (delayVal (getCell t2.cols r2 actualArrCol) (getCell t2.cols r2 schedArrCol)) := by
      intro r2 hr2
      rw [hrows2] at hr2
      rcases List.mem_map.mp hr2 with ⟨r, hr, rfl⟩
      have hlen : r.length = (normalizeTable t).cols.length := wfB_len hwfn hr
      constructor
      · rw [hcols2, getCell_delays_fst hdepn hlen, getCell_delays_operand hia hlen,
          getCell_delays_operand hisd hlen, delayVal_some]
      · rw [hcols2, getCell_delays_snd harrn hlen, getCell_delays_operand hiaa hlen,
          getCell_delays_operand hisa hlen, delayVal_some]
    rcases resolveDifficulty_elim hres with ⟨c, hd, hc, hrws, _, _⟩ | ⟨hd, hc, hrws, _, _⟩
    · intro r' hr'
      rw [hrws] at hr'
      have hmc := head?_filter_matches hd
      have hgc : ∀ x, matchesDifficulty x = false → ¬ flightDifficultyCol = x →
          getCell m.cols r' x = getCell t2.cols r' x := by
        intro x hx1 hx2
        rw [hc]
        exact getCell_map_congr _ (rename_pred_congr hmc.1 hx1 hx2)
      obtain ⟨h1, h2⟩ := hcore r' hr'
      constructor
      · rw [hgc depDelayCol (by decide) (by decide), hgc actualDepCol (by decide) (by decide),
          hgc schedDepCol (by decide) (by decide)]
        exact h1
      · rw [hgc arrDelayCol (by decide) (by decide), hgc actualArrCol (by decide) (by decide),
          hgc schedArrCol (by decide) (by decide)]
        exact h2
    · intro r' hr'
      rw [hrws] at hr'
      rcases mem_addRand hr' with ⟨r2, hr2, j, rfl⟩
      have hlen2 : r2.length = t2.cols.length := wfB_len hwf2 hr2
      have hgc : ∀ x, ¬ flightDifficultyCol = x →
          getCell m.cols (r2 ++ [Value.int (Int.ofNat (1 + rand j % 99))]) x
            = getCell t2.cols r2 x := by
        intro x hx
        rw [hc]
        apply getCell_append_not_mem hlen2
        intro hmem
        exact hx (List.mem_singleton.mp hmem).symm
      obtain ⟨h1, h2⟩ := hcore r2 hr2
      constructor
      · rw [hgc depDelayCol (by decide), hgc actualDepCol (by decide),
          hgc schedDepCol (by decide)]
        exact h1
      · rw [hgc arrDelayCol (by decide), hgc actualArrCol (by decide),
          hgc schedArrCol (by decide)]
        exact h2

/-- C1 witness: on a two-row merged table, `actual = scheduled + 23 min`
yields `departure_delay_mins = 23.0` exactly, and a missing actual departure
yields `0`. -/
theorem c1_delay_derivation_witness :
    wfB tC1 = true
    ∧ postProcess rand0 tC1 = .ok (mC1, noteC1, warnC1)
    ∧ getCell mC1.cols (mC1.rows.getD 0 []) depDelayCol
        = some (delayVal (getCell mC1.cols (mC1.rows.getD 0 []) actualDepCol)
            (getCell mC1.cols (mC1.rows.getD 0 []) schedDepCol))
    ∧ getCell mC1.cols (mC1.rows.getD 0 []) depDelayCol = some (Value.rat 23)
    ∧ getCell mC1.cols (mC1.rows.getD 1 []) depDelayCol = some (Value.rat 0) := by
  refine ⟨by decide, rfl, ?_, by decide, by decide⟩
  exact (c1_delay_derivation rand0 tC1 (by decide) (by decide) (by decide) mC1 noteC1 warnC1
    rfl (mC1.rows.getD 0 []) (by decide)).1

/-- C3: join correctness and fan-out on the composite key.  Before dedup, the
joined row count for a key value is the flight-side count times
`max(N,1) x max(M,1)`; a flight row with no PNR and no bag matches survives
as exactly one null-padded row, and that row still counts exactly once in the
final MergedFlightView produced by the post-merge steps. -/
theorem c3_join_fanout (flight pnr bag m1 m2 : Table) (kv : List (Option Value))
    (hwf : wfB flight = true) (hwp : wfB pnr = true) (hwb : wfB bag = true)
    (hd1 : disjointB flight.cols pnr.cols joinKeys = true)
    (hm1 : mergeT flight pnr joinKeys = .ok m1)
    (hd2 : disjointB m1.cols bag.cols joinKeys = true)
    (hm2 : mergeT m1 bag joinKeys = .ok m2) :
    countKey m2 joinKeys kv
      = countKey flight joinKeys kv * max (countKey pnr joinKeys kv) 1
          * max (countKey bag joinKeys kv) 1
    ∧ (∀ fr, flight.rows.filter (hasKeyB flight.cols joinKeys kv) = [fr] →
        countKey pnr joinKeys kv = 0 → countKey bag joinKeys kv = 0 →
        m2.rows.filter (hasKeyB m2.cols joinKeys kv)
          = [fr ++ List.replicate (nonKeyCols pnr.cols joinKeys).length Value.null
                ++ List.replicate (nonKeyCols bag.cols joinKeys).length Value.null]
        ∧ ∀ (rand : Nat → Nat) (m : Table) (note : Option String) (warn : Bool),
            postProcess rand ⟨m2.cols, dedupRows m2.rows⟩ = .ok (m, note, warn) →
            countKey m joinKeys kv = 1) := by
  have hwm1 : wfB m1 = true := wfB_mergeT hwf hwp hm1
  have hc2 : countKey m2 joinKeys kv
      = countKey m1 joinKeys kv * max (countKey bag joinKeys kv) 1 :=
    countKey_mergeT hwm1 hd2 hm2
  have hc1 : countKey m1 joinKeys kv
      = countKey flight joinKeys kv * max (countKey pnr joinKeys kv) 1 :=
    countKey_mergeT hwf hd1 hm1
  refine ⟨by rw [hc2, hc1], ?_⟩
  intro fr hone hp0 hb0
  have hfill1 : m1.rows.filter (hasKeyB m1.cols joinKeys kv)
      = [fr ++ List.replicate (nonKeyCols pnr.cols joinKeys).length Value.null] :=
    filter_mergeT_nullfill hwf hd1 hm1 hone hp0
  have hfill2 : m2.rows.filter (hasKeyB m2.cols joinKeys kv)
      = [fr ++ List.replicate (nonKeyCols pnr.cols joinKeys).length Value.null
            ++ List.replicate (nonKeyCols bag.cols joinKeys).length Value.null] :=
    filter_mergeT_nullfill hwm1 hd2 hm2 hfill1 hb0
  refine ⟨hfill2, ?_⟩
  intro rand m note warn hpp
  have hwm2 : wfB m2 = true := wfB_mergeT hwm1 hwb hm2
  have hwfd : wfB ⟨m2.cols, dedupRows m2.rows⟩ = true := wfB_dedup hwm2
  rw [countKey_postProcess hwfd hpp]
  show ((dedupRows m2.rows).filter (hasKeyB m2.cols joinKeys kv)).length = 1
  rw [filter_dedupRows_singleton hfill2]
  rfl

/-- C3 witness: flight row A has two PNR matches and no bags (four joined
rows in total, two for its key); flight row B matches nothing and survives as
exactly one null-padded row, also after dedup and the post-merge steps. -/
theorem c3_join_fanout_witness :
    mergeT flC3 pnrC3 joinKeys = .ok m1C3
    ∧ mergeT m1C3 bagC3 joinKeys = .ok m2C3
    ∧ countKey m2C3 joinKeys kvC3a = 2
    ∧ m2C3.rows.filter (hasKeyB m2C3.cols joinKeys kvC3b)
        = [rowBC3 ++ List.replicate 1 Value.null ++ List.replicate 1 Value.null]
    ∧ countKey mC3f joinKeys kvC3b = 1 := by
  have ha := c3_join_fanout flC3 pnrC3 bagC3 m1C3 m2C3 kvC3a (by decide) (by decide)
    (by decide) (by decide) rfl (by decide) rfl
  have hb := c3_join_fanout flC3 pnrC3 bagC3 m1C3 m2C3 kvC3b (by decide) (by decide)
    (by decide) (by decide) rfl (by decide) rfl
  refine ⟨rfl, rfl, ?_, ?_, ?_⟩
  · rw [ha.1]
    decide
  · exact (hb.2 rowBC3 (by decide) (by decide) (by decide)).1
  · exact (hb.2 rowBC3 (by decide) (by decide) (by decide)).2 rand0 mC3f noteC3 warnC3 rfl

end AirlineDash
